import Mathlib

/-!
Verification of the aery declarative resource-application runtime.

Strings are modelled as lists of characters (`Str`); machine integers as
`Nat` with explicit reduction modulo `2^32` / `2^64`; byte slices as
`List Nat` with each element below 256 (produced by UTF-8 encoding).
Effectful collaborators (the ARM HTTP pipeline, the LRO poller, and the
name-generation function that is not part of this tree) are passed in as
explicit function parameters; each PUT request issued is recorded in the
outcome so that temporal and error-handling properties can be stated.
-/

namespace Aery

/-- Strings, modelled as lists of characters (the sources only ever deal in
ASCII, where characters and bytes coincide). -/
abbrev Str := List Char

/-- Conversion from a Lean string literal to the `Str` model. -/
def str (s : String) : Str := s.data

/-! ## Hasher (`util.go`) -/

/-- Reduction modulo `2^32`, the behaviour of Go `uint32` arithmetic. -/
def m32 (n : Nat) : Nat := n % 4294967296

/-- Reduction modulo `2^64`, the behaviour of Go `uint64` arithmetic. -/
def m64 (n : Nat) : Nat := n % 18446744073709551616

/-- The function `rotateLeft32` from `util.go`: `(x << r) | (x >> (32 - r))` on `uint32`. -/
def rotateLeft32 (x r : Nat) : Nat := m32 (x <<< r) ||| x >>> (32 - r)

def c1 : Nat := 0x239b961b
def c2 : Nat := 0xab0e9789
def c3 : Nat := 0x561ccd1b
def c4 : Nat := 0x0bcaa747
def c5 : Nat := 0x85ebca6b
def c6 : Nat := 0xc2b2ae35

/-- The 8-byte block loop of `MurmurHash64` (`for index+7 < length`),
returning the two accumulators and the remaining tail bytes. -/
def mmLoop (h1 h2 : Nat) : List Nat → Nat × Nat × List Nat
  | b0 :: b1 :: b2 :: b3 :: b4 :: b5 :: b6 :: b7 :: rest =>
    let k1 := b0 ||| b1 <<< 8 ||| b2 <<< 16 ||| b3 <<< 24
    let k2 := b4 ||| b5 <<< 8 ||| b6 <<< 16 ||| b7 <<< 24
    let k1 := m32 (k1 * c1)
    let k1 := rotateLeft32 k1 15
    let k1 := m32 (k1 * c2)
    let h1 := h1 ^^^ k1
    let h1 := rotateLeft32 h1 19
    let h1 := m32 (h1 + h2)
    let h1 := m32 (h1 * 5 + c3)
    let k2 := m32 (k2 * c2)
    let k2 := rotateLeft32 k2 17
    let k2 := m32 (k2 * c1)
    let h2 := h2 ^^^ k2
    let h2 := rotateLeft32 h2 13
    let h2 := m32 (h2 + h1)
    let h2 := m32 (h2 * 5 + c4)
    mmLoop h1 h2 rest
  | tail => (h1, h2, tail)

/-- The 1–7 byte tail-handling branch of `MurmurHash64`. -/
def mmTail (h1 h2 : Nat) (tail : List Nat) : Nat × Nat :=
  match tail with
  | [] => (h1, h2)
  | _ =>
    let k1 :=
      match tail with
      | b0 :: b1 :: b2 :: b3 :: _ => b0 ||| b1 <<< 8 ||| b2 <<< 16 ||| b3 <<< 24
      | [b0, b1, b2] => b0 ||| b1 <<< 8 ||| b2 <<< 16
      | [b0, b1] => b0 ||| b1 <<< 8
      | [b0] => b0
      | [] => 0
    let k1 := m32 (k1 * c1)
    let k1 := rotateLeft32 k1 15
    let k1 := m32 (k1 * c2)
    let h1 := h1 ^^^ k1
    match tail with
    | [_, _, _, _, b4, b5, b6] =>
      let k2 := b4 ||| b5 <<< 8 ||| b6 <<< 16
      let k2 := m32 (k2 * c2)
      let k2 := rotateLeft32 k2 17
      let k2 := m32 (k2 * c1)
      (h1, h2 ^^^ k2)
    | [_, _, _, _, b4, b5] =>
      let k2 := b4 ||| b5 <<< 8
      let k2 := m32 (k2 * c2)
      let k2 := rotateLeft32 k2 17
      let k2 := m32 (k2 * c1)
      (h1, h2 ^^^ k2)
    | [_, _, _, _, b4] =>
      let k2 := b4
      let k2 := m32 (k2 * c2)
      let k2 := rotateLeft32 k2 17
      let k2 := m32 (k2 * c1)
      (h1, h2 ^^^ k2)
    | _ => (h1, h2)

/-- Final avalanche mixing applied to each accumulator. -/
def mmAvalanche (h : Nat) : Nat :=
  let h := h ^^^ h >>> 16
  let h := m32 (h * c5)
  let h := h ^^^ h >>> 13
  let h := m32 (h * c6)
  h ^^^ h >>> 16

/-- The function `MurmurHash64` from `util.go`: the 64-bit MurmurHash2 variant over a byte
sequence with a 32-bit seed. -/
def MurmurHash64 (data : List Nat) (seed : Nat) : Nat :=
  let length := data.length
  let (h1, h2, tail) := mmLoop (m32 seed) (m32 seed) data
  let (h1, h2) := mmTail h1 h2 tail
  let h1 := h1 ^^^ m32 length
  let h2 := h2 ^^^ m32 length
  let h1 := m32 (h1 + h2)
  let h2 := m32 (h2 + h1)
  let h1 := mmAvalanche h1
  let h2 := mmAvalanche h2
  let h1 := m32 (h1 + h2)
  let h2 := m32 (h2 + h1)
  h2 <<< 32 ||| h1

/-! ## Name Generator (`funcs.go`) -/

/-- UTF-8 encoding of one character, the meaning of Go's `[]byte(string)`. -/
def utf8Encode (ch : Char) : List Nat :=
  let n := ch.toNat
  if n < 0x80 then [n]
  else if n < 0x800 then [0xC0 ||| n >>> 6, 0x80 ||| (n &&& 0x3F)]
  else if n < 0x10000 then
    [0xE0 ||| n >>> 12, 0x80 ||| (n >>> 6 &&& 0x3F), 0x80 ||| (n &&& 0x3F)]
  else
    [0xF0 ||| n >>> 18, 0x80 ||| (n >>> 12 &&& 0x3F),
      0x80 ||| (n >>> 6 &&& 0x3F), 0x80 ||| (n &&& 0x3F)]

/-- The bytes of a string, the meaning of Go's `[]byte(s)`. -/
def bytesOfStr (s : Str) : List Nat := s.flatMap utf8Encode

/-- The 32-character base-32 alphabet of `base32EncodeLen13`. -/
def charset : Str := str "abcdefghijklmnopqrstuvwxyz234567"

/-- The encoding loop of `base32EncodeLen13`: emit `charset[input64 >> 59]`
and left-shift by 5 (on `uint64`), `n` times. -/
def b32Go : Nat → Nat → Str
  | 0, _ => []
  | n + 1, v => charset.getD (v >>> 59) 'a' :: b32Go n (m64 (v <<< 5))

/-- The function `base32EncodeLen13` from `funcs.go`. -/
def base32EncodeLen13 (input64 : Nat) : Str := b32Go 13 input64

/-- Go `strings.ToLower` (character-wise ASCII lowering). -/
def lowerStr (s : Str) : Str := s.map Char.toLower

/-- Errors, mirroring Go `error` values: plain `fmt.Errorf` messages,
`%w`-wrapped causes, and `azruntime.NewResponseError` values (which carry the
response's status code and body). -/
inductive Err where
  | simple (msg : Str)
  | wrapped (ctx : Str) (cause : Err)
  | responseError (statusCode : Nat) (body : Str)
deriving DecidableEq

instance {ε α : Type} [DecidableEq ε] [DecidableEq α] : DecidableEq (Except ε α)
  | .ok a, .ok b =>
    if h : a = b then .isTrue (by rw [h]) else .isFalse (by simpa using h)
  | .error a, .error b =>
    if h : a = b then .isTrue (by rw [h]) else .isFalse (by simpa using h)
  | .ok _, .error _ => .isFalse (by simp)
  | .error _, .ok _ => .isFalse (by simp)

/-- The function `UniqueString` from `funcs.go`. -/
def UniqueString (input : List Str) : Except Err Str :=
  if input.isEmpty then
    .error (.simple (str "uniqueString requires at least one input"))
  else
    let inputStr := List.intercalate (str "-") input
    let hash := MurmurHash64 (bytesOfStr inputStr) 0
    .ok (lowerStr (base32EncodeLen13 hash))

/-! ## String utilities (Go `strings` package semantics) -/

/-- Go `strings.Index`: index of the first occurrence of `sep` in `s`,
as an `Option` (`none` for Go's `-1`). `indexOfSub s [] = some 0`. -/
def indexOfSub (s sep : Str) : Option Nat :=
  if sep.isPrefixOf s then some 0
  else
    match s with
    | [] => none
    | _ :: t => (indexOfSub t sep).map (· + 1)

/-- Go `strings.Contains`. -/
def containsSub (s sub : Str) : Bool := (indexOfSub s sub).isSome

/-- Go `strings.Cut`: `(before, after, found)` around the first occurrence
of `sep` in `s`. -/
def cut (s sep : Str) : Str × Str × Bool :=
  match indexOfSub s sep with
  | some i => (s.take i, s.drop (i + sep.length), true)
  | none => (s, [], false)

/-- Go `strings.LastIndex(s, c)` for a single character, as an `Option`
(`none` for Go's `-1`). -/
def lastIndexOfChar (ch : Char) : Str → Option Nat
  | [] => none
  | a :: t =>
    match lastIndexOfChar ch t with
    | some k => some (k + 1)
    | none => if a == ch then some 0 else none

/-- The predicate `isChildResource` from the runtime: the type has a second `/` after the
first one, and the first `/` is not the final character. -/
def isChildResource (kind : Str) : Bool :=
  match indexOfSub kind (str "/") with
  | none => false
  | some first =>
    if first + 1 == kind.length then false
    else (kind.drop (first + 1)).contains '/'

/-! ## Data model and parent resolution (`Apply`) -/

/-- The structure `ResourceSpec`: one resource to materialize. The raw `spec` document is
opaque to the runtime and not modelled. -/
structure ResourceSpec where
  name : Str
  «alias» : Str
  parent : Str
  type : Str
  apiVersion : Str
deriving DecidableEq

/-- The acceptance test of the dynamic parent-resolution loop, exactly as in
the source: `before, after, found := strings.Cut(r.Type, p.Type)` accepted
when `found && before == "" && len(after) > 1 && after[0] == '/' &&
!strings.Contains(after[1:], "/")`. -/
def acceptParent (rType pType : Str) : Bool :=
  let c := cut rType pType
  let before := c.1
  let after := c.2.1
  let found := c.2.2
  found && before.isEmpty && decide (1 < after.length) &&
    (after.headD (Char.ofNat 0) == '/') && !(after.drop 1).contains '/'

/-- The inner scan of the resolution pass: iterate candidates `p` with index
`j`, skipping `j = i`; on the first accepted candidate return
`p.Type + "/" + p.Name`. -/
def findParentAux (rType : Str) (i j : Nat) : List ResourceSpec → Option Str
  | [] => none
  | p :: rest =>
    if i == j then findParentAux rType i (j + 1) rest
    else if acceptParent rType p.type then some (p.type ++ str "/" ++ p.name)
    else findParentAux rType i (j + 1) rest

/-- Scan the whole resource list for the parent of the resource at index `i`. -/
def findParent (rType : Str) (i : Nat) (rs : List ResourceSpec) : Option Str :=
  findParentAux rType i 0 rs

/-- The outer resolution loop, mutating the list in place one index at a
time: `done` holds the already-processed prefix of the (possibly updated)
list, `todo` the rest. -/
def resolveGo (done todo : List ResourceSpec) : Except Err (List ResourceSpec) :=
  match todo with
  | [] => .ok done
  | r :: rest =>
    if isChildResource r.type && r.parent.isEmpty then
      match findParent r.type done.length (done ++ r :: rest) with
      | some par => resolveGo (done ++ [{ r with parent := par }]) rest
      | none => .error (.simple (str "failed to resolve parent for " ++ r.name))
    else resolveGo (done ++ [r]) rest

/-- The parent-resolution pass of `Apply` (the loop over `resources` that
fills empty `Parent` fields, failing when a child resource has no
resolvable parent). -/
def resolveParents (rs : List ResourceSpec) : Except Err (List ResourceSpec) :=
  resolveGo [] rs

/-! ### The claimed parent-resolution algorithm, stated from the spec

These definitions transcribe the specification's wording for the resolution
pass (prefix test phrased with `isPrefixOf`/`drop`, a first-match scan over
the same document set in document order), to be compared with the
`strings.Cut`-based source algorithm above. -/

/-- Parent acceptance exactly as the claim words it: `r.Type` has `p.Type`
as a strict prefix, immediately followed by `/`, and the remainder after
that `/` contains no further `/`. -/
def claimAccept (rType pType : Str) : Bool :=
  pType.isPrefixOf rType &&
    ((rType.drop pType.length).headD (Char.ofNat 0) == '/') &&
    !((rType.drop pType.length).drop 1).contains '/'

/-- Parent acceptance as amended: additionally the remainder after the `/`
must be non-empty (the source requires `len(after) > 1`). -/
def amendedAccept (rType pType : Str) : Bool :=
  pType.isPrefixOf rType &&
    decide (1 < (rType.drop pType.length).length) &&
    ((rType.drop pType.length).headD (Char.ofNat 0) == '/') &&
    !((rType.drop pType.length).drop 1).contains '/'

/-- First-match scan in document order, skipping the resource's own index,
using the amended acceptance test. -/
def specFindParentAux (rType : Str) (i j : Nat) : List ResourceSpec → Option Str
  | [] => none
  | p :: rest =>
    if i == j then specFindParentAux rType i (j + 1) rest
    else if amendedAccept rType p.type then some (p.type ++ str "/" ++ p.name)
    else specFindParentAux rType i (j + 1) rest

/-- What the (amended) claim says resolution does to the resource at index
`i`: untouched unless it is a child resource with empty `Parent`, in which
case the first accepted sibling determines the new `Parent`, and the pass
fails when there is none. -/
def specResolveOne (rs : List ResourceSpec) (i : Nat) (r : ResourceSpec) :
    Except Err ResourceSpec :=
  if isChildResource r.type && r.parent.isEmpty then
    match specFindParentAux r.type i 0 rs with
    | some par => .ok { r with parent := par }
    | none => .error (.simple (str "failed to resolve parent for " ++ r.name))
  else .ok r

/-- The body of `specResolve`: resolve each resource of `todo` (whose first
element sits at index `i` of the full document set `rs`) independently
against `rs`, stopping at the first failure. -/
def specResolveGo (rs : List ResourceSpec) :
    Nat → List ResourceSpec → Except Err (List ResourceSpec)
  | _, [] => .ok []
  | i, r :: rest =>
    match specResolveOne rs i r with
    | .error e => .error e
    | .ok r' =>
      match specResolveGo rs (i + 1) rest with
      | .error e => .error e
      | .ok rest' => .ok (r' :: rest')

/-- The resolution pass as the (amended) claim describes it: each resource
is resolved independently against the document set, in document order. -/
def specResolve (rs : List ResourceSpec) : Except Err (List ResourceSpec) :=
  specResolveGo rs 0 rs

/-- The type/name projection of a resource list: resolution only ever reads
these two fields of the scanned candidates. -/
def shapeTN (rs : List ResourceSpec) : List (Str × Str) :=
  rs.map (fun r => (r.type, r.name))

/-! ## Apply Executor (`applyResource` and the loops of `Apply`)

The HTTP pipeline is modelled as a function `send` from the request URL of
the PUT to the response; the LRO poller (`PollUntilDone`) as a function
`poll` from the URL to its result; and the name-generation function
`Name(token, resource)` — whose definition lives outside this tree — as a
function parameter `nameFn`. Every PUT issued is recorded in `puts`. -/

/-- An HTTP response: status code and payload body. -/
structure Response where
  statusCode : Nat
  body : Str
deriving DecidableEq

/-- The outcome of `applyResource`: the resource (whose `Name` may have been
filled in through the pointer), the PUT requests issued (by URL), and the
returned error, if any. -/
structure ApplyOutcome where
  resource : ResourceSpec
  puts : List Str
  result : Except Err Unit
deriving DecidableEq

/-- The base endpoint: `https://<host>/subscriptions/<sub>` plus
`/resourceGroups/<group>` when a group is given. -/
def endpointOf (subscriptionId group : Str) : Str :=
  let endpoint := str "https://management.azure.com/subscriptions/" ++ subscriptionId
  if group.isEmpty then endpoint
  else endpoint ++ str "/resourceGroups/" ++ group

/-- The name-filling step of `applyResource` (the branch for
`resource.Name == "" && resource.Alias != ""`): derive the unique token and
call the name generator, wrapping failures as in the source. -/
def nameStep (subscriptionId group : Str)
    (nameFn : Str → ResourceSpec → Except Err Str) (r : ResourceSpec) :
    Except Err ResourceSpec :=
  if r.name.isEmpty && !r.«alias».isEmpty then
    match UniqueString [subscriptionId, group, r.«alias»] with
    | .error e => .error (.wrapped (str "generating unique token") e)
    | .ok uniqueToken =>
      match nameFn uniqueToken r with
      | .error e => .error (.wrapped (str "generating unique name for alias") e)
      | .ok n => .ok { r with name := n }
  else .ok r

/-- The request-URL computation of `applyResource`: the provider segment
(special-cased for resource groups) and the parent-splicing branch with its
validity check. When `Type` contains no `/` at all, Go's
`resource.Parent[:lastSlash]` slices with index `-1` and panics; that is
modelled as an error. -/
def locationStep (endpoint : Str) (r : ResourceSpec) : Except Err Str :=
  let providerSegment :=
    if r.type == str "Microsoft.Resources/resourceGroups" then str "resourcegroups"
    else str "providers/" ++ r.type
  let location :=
    endpoint ++ str "/" ++ providerSegment ++ str "/" ++ r.name ++
      str "?api-version=" ++ r.apiVersion
  if r.parent.isEmpty then .ok location
  else
    match lastIndexOfChar '/' r.type with
    | none => .error (.simple (str "panic: slice bounds out of range"))
    | some lastSlash =>
      if r.parent.length < lastSlash ||
          r.parent.take lastSlash != r.type.take lastSlash then
        .error (.simple (str "parent resource " ++ r.parent ++
          str " is not a valid parent for resource " ++ r.name))
      else
        let base := r.type.take lastSlash
        let parentSegment := r.parent.drop lastSlash
        let childSegment := r.type.drop lastSlash
        .ok (endpoint ++ str "/providers/" ++ base ++ parentSegment ++
          childSegment ++ str "/" ++ r.name ++ str "?api-version=" ++ r.apiVersion)

/-- The function `applyResource`: validate the name/alias invariant, fill in the name,
build the PUT URL, issue the request, and handle the response status
(200 done; 201 polls the LRO to completion; anything else is a
`ResponseError` from the status code and body). -/
def applyResource (subscriptionId group : Str)
    (nameFn : Str → ResourceSpec → Except Err Str)
    (send : Str → Response) (poll : Str → Except Err Unit)
    (r : ResourceSpec) : ApplyOutcome :=
  let endpoint := endpointOf subscriptionId group
  if r.name.isEmpty && r.«alias».isEmpty then
    ⟨r, [], .error (.simple (str "resource " ++ r.type ++
      str " must specify either name or alias"))⟩
  else if !r.name.isEmpty && !r.«alias».isEmpty then
    ⟨r, [], .error (.simple (str "resource " ++ r.name ++
      str " cannot specify both name and alias"))⟩
  else
    match nameStep subscriptionId group nameFn r with
    | .error e => ⟨r, [], .error e⟩
    | .ok r' =>
      match locationStep endpoint r' with
      | .error e => ⟨r', [], .error e⟩
      | .ok location =>
        let resp := send location
        if !(resp.statusCode == 201 || resp.statusCode == 200) then
          ⟨r', [location], .error (.responseError resp.statusCode resp.body)⟩
        else if resp.statusCode == 201 then
          match poll location with
          | .error e => ⟨r', [location], .error e⟩
          | .ok _ => ⟨r', [location], .ok ()⟩
        else ⟨r', [location], .ok ()⟩

/-- The sequential apply loop of `Apply`: each resource in document order,
stopping at the first failure, which is wrapped as
`"failed applying resource <name>: <cause>"`. Returns all PUTs issued and
the final result. -/
def applyList (subscriptionId group : Str)
    (nameFn : Str → ResourceSpec → Except Err Str)
    (send : Str → Response) (poll : Str → Except Err Unit) :
    List ResourceSpec → List Str × Except Err Unit
  | [] => ([], .ok ())
  | r :: rest =>
    let o := applyResource subscriptionId group nameFn send poll r
    match o.result with
    | .error e =>
      (o.puts, .error (.wrapped (str "failed applying resource " ++
        o.resource.name) e))
    | .ok _ =>
      let (ps, res) := applyList subscriptionId group nameFn send poll rest
      (o.puts ++ ps, res)

/-- The per-file loop of `Apply` (lines 166–208 of the runtime): each file's
resource list is loaded, parent-resolved, then applied, one file at a time.
Returns every PUT issued across the run and the first error, if any. -/
def applyFiles (subscriptionId group : Str)
    (nameFn : Str → ResourceSpec → Except Err Str)
    (send : Str → Response) (poll : Str → Except Err Unit) :
    List (List ResourceSpec) → List Str × Option Err
  | [] => ([], none)
  | f :: rest =>
    match resolveParents f with
    | .error e => ([], some e)
    | .ok resolved =>
      match applyList subscriptionId group nameFn send poll resolved with
      | (puts, .error e) => (puts, some e)
      | (puts, .ok _) =>
        let (ps, err) := applyFiles subscriptionId group nameFn send poll rest
        (puts ++ ps, err)

/-! ### Concrete runs used as witnesses and counterexamples -/

/-- A resource that applies cleanly. -/
def resA9 : ResourceSpec := ⟨str "a", [], [], str "T", str "v"⟩

/-- A resource whose PUT will be answered with a 500. -/
def resB9 : ResourceSpec := ⟨str "b", [], [], str "U", str "v"⟩

/-- The request URL `applyResource` computes for `resA9`. -/
def locA9 : Str :=
  str "https://management.azure.com/subscriptions/s/resourceGroups/g/providers/T/a?api-version=v"

/-- The request URL `applyResource` computes for `resB9`. -/
def locB9 : Str :=
  str "https://management.azure.com/subscriptions/s/resourceGroups/g/providers/U/b?api-version=v"

/-- A pipeline double answering 500 for `resB9`'s URL and 200 otherwise. -/
def send9 : Str → Response :=
  fun loc => if loc == locB9 then ⟨500, str "boom"⟩ else ⟨200, []⟩

/-- A name-generation double. -/
def nameFn9 : Str → ResourceSpec → Except Err Str := fun _ _ => .ok (str "n")

/-- A poller double that always succeeds. -/
def poll9 : Str → Except Err Unit := fun _ => .ok ()

/-- An orphaned child resource: no sibling can be its parent. -/
def resOrphan : ResourceSpec := ⟨str "c", [], [], str "A/B/C", str "v"⟩

end Aery

namespace Aerygen

/-! ## Name Generator over the catalog (`infra_gen.go`, package `aerygen`)

`cue.Value` resource definitions are modelled by their string-valued
fields: `name` and `alias` are `Option Str` (`some` when the field exists
and is a string, mirroring a successful `String()` lookup); `type` is
required; the `spec` document is modelled as an association list from
property paths to string values (`some` meaning the path exists and holds
a string — the only case the source reads). -/

open Aery (Str str Err containsSub lowerStr)

structure CustomKind where
  propertyPath : Str
  value : Str
deriving DecidableEq

/-- The structure `RestrictedChars`; the Go field `Prefix` is spelled `prefixChars` here
(`prefix` is reserved in Lean), and similarly for the others. -/
structure RestrictedChars where
  global : Str
  prefixChars : Str
  suffixChars : Str
  consecutive : Str
deriving DecidableEq

structure Messages where
  onSuccess : Str
  onFailure : Str
deriving DecidableEq

structure NamingRules where
  minLength : Nat
  maxLength : Nat
  uniquenessScope : Str
  regex : Str
  wordSeparator : Str
  restrictedChars : RestrictedChars
  messages : Messages
deriving DecidableEq

/-- A catalog entry: one kind of a resource type. -/
structure ResourceKind where
  name : Str
  kind : Str
  customKind : CustomKind
  abbreviation : Str
  namingRules : NamingRules
deriving DecidableEq

/-- A resource definition as the name generator sees it. -/
structure ResourceDef where
  name : Option Str
  «alias» : Option Str
  type : Str
  spec : List (Str × Str)
deriving DecidableEq

/-- The naming catalog (`azure.Names.Types`), passed explicitly: resource
type to its list of kinds. -/
abbrev Catalog := List (Str × List ResourceKind)

/-- Lookup of a string-valued property of the resource's `spec` document. -/
def lookupProp (props : List (Str × Str)) (path : Str) : Option Str :=
  (props.find? (fun p => p.1 == path)).map (·.2)

/-- Catalog lookup by resource type. -/
def typesLookup (catalog : Catalog) (t : Str) : Option (List ResourceKind) :=
  (catalog.find? (fun e => e.1 == t)).map (·.2)

/-- The scan of `matchResourceKind`: an entry with empty `Kind` becomes the
current fallback and scanning continues; a named (or custom) kind whose
configured property exists and contains the kind value (case-insensitive)
is returned immediately. -/
def matchGo (rdef : ResourceDef) :
    Option ResourceKind → List ResourceKind → Option ResourceKind
  | found, [] => found
  | found, rk :: rest =>
    if rk.kind.isEmpty then matchGo rdef (some rk) rest
    else
      let kindPath :=
        if !rk.customKind.propertyPath.isEmpty then rk.customKind.propertyPath
        else str "kind"
      let kindVal :=
        if !rk.customKind.propertyPath.isEmpty then rk.customKind.value
        else rk.kind
      match lookupProp rdef.spec kindPath with
      | none => matchGo rdef found rest
      | some v =>
        if containsSub (lowerStr v) (lowerStr kindVal) then some rk
        else matchGo rdef found rest

/-- The function `matchResourceKind` from `infra_gen.go`. -/
def matchResourceKind (rdef : ResourceDef) (kinds : List ResourceKind) :
    Option ResourceKind :=
  matchGo rdef none kinds

/-- The sentinel `ErrNotFound`. -/
def errNotFound : Err :=
  .simple (str "naming translation for resource type not found")

/-- The function `Name(token, resourceDefinition)` from `infra_gen.go`: an explicit
`name` wins outright; otherwise the catalog entry for the type is matched
to a kind, the separator is dropped when the kind's restricted characters
globally forbid `-`, and the alias (or, when absent, the kind's
abbreviation) is prefixed to the token. -/
def Name (token : Str) (rdef : ResourceDef) (catalog : Catalog) :
    Except Err Str :=
  match rdef.name with
  | some existingName => .ok existingName
  | none =>
    let aliasVal := rdef.«alias».getD []
    match typesLookup catalog rdef.type with
    | none => .error (.wrapped rdef.type errNotFound)
    | some resTypeNames =>
      match matchResourceKind rdef resTypeNames with
      | none => .error (.wrapped (str "evaluating kind: " ++ rdef.type) errNotFound)
      | some kind =>
        let separator :=
          if containsSub kind.namingRules.restrictedChars.global (str "-") then []
          else str "-"
        let aliasVal := if aliasVal.isEmpty then kind.abbreviation else aliasVal
        .ok (aliasVal ++ separator ++ token)

/-- A concrete default catalog kind used to exercise the name generator. -/
def kindDefault : ResourceKind where
  name := str "default"
  kind := []
  customKind := ⟨[], []⟩
  abbreviation := str "ab"
  namingRules :=
    { minLength := 0, maxLength := 0, uniquenessScope := [], regex := [],
      wordSeparator := [], restrictedChars := ⟨str "-", [], [], []⟩,
      messages := ⟨[], []⟩ }

/-- A concrete one-entry catalog. -/
def catalogEx : Catalog := [(str "T", [kindDefault])]

/-- A concrete resource definition with no explicit name or alias. -/
def rdefEx : ResourceDef where
  name := none
  «alias» := none
  type := str "T"
  spec := []

end Aerygen

namespace Aery

/-! ## Helper lemmas -/

theorem isEmpty_false_of_ne {α : Type} {l : List α} (h : l ≠ []) : l.isEmpty = false := by
  cases l with
  | nil => exact absurd rfl h
  | cons a t => rfl

theorem str_dash : str "-" = ['-'] := rfl

theorem containsSub_singleton (s : Str) (a : Char) :
    containsSub s [a] = s.contains a := by
  induction s with
  | nil => simp [containsSub, indexOfSub]
  | cons x t ih =>
    have ih' : (indexOfSub t [a]).isSome = t.contains a := ih
    by_cases hax : a = x
    · subst hax
      simp [containsSub, indexOfSub, List.isPrefixOf]
    · have h1 : (a == x) = false := beq_eq_false_iff_ne.mpr hax
      have h2 : (x == a) = false := beq_eq_false_iff_ne.mpr (Ne.symm hax)
      simp [containsSub, indexOfSub, List.isPrefixOf, h1, h2, ih']
      exact fun hax2 => absurd hax2 hax

theorem b32Go_length (n v : Nat) : (b32Go n v).length = n := by
  induction n generalizing v with
  | zero => rfl
  | succ n ih => simp [b32Go, ih]

theorem getD_mem_or {α : Type} (l : List α) (i : Nat) (d : α) :
    l.getD i d ∈ l ∨ l.getD i d = d := by
  induction l generalizing i with
  | nil => right; simp [List.getD]
  | cons a t ih =>
    cases i with
    | zero => left; simp [List.getD]
    | succ j =>
      rcases ih j with h | h
      · left; exact List.mem_cons_of_mem _ (by simpa [List.getD] using h)
      · right; simpa [List.getD] using h

theorem charset_getD_mem (i : Nat) : charset.getD i 'a' ∈ charset := by
  rcases getD_mem_or charset i 'a' with h | h
  · exact h
  · rw [h]; decide

theorem b32Go_mem {n v : Nat} {ch : Char} (h : ch ∈ b32Go n v) : ch ∈ charset := by
  induction n generalizing v with
  | zero => simp [b32Go] at h
  | succ n ih =>
    rw [b32Go] at h
    rcases List.mem_cons.mp h with h | h
    · rw [h]; exact charset_getD_mem _
    · exact ih h

theorem toLower_mem_charset {ch : Char} (h : ch ∈ charset) : ch.toLower = ch := by
  have hall : charset.all (fun c => c.toLower == c) = true := by decide
  exact eq_of_beq (List.all_eq_true.mp hall ch h)

/-! ## Claim theorems -/

/-- C2: `MurmurHash64` matches the published test vectors exactly:
`MurmurHash64("", 0) = 0`, `MurmurHash64("", 1) = 0x3CD62B54B6E5772D`,
`MurmurHash64("test", 0) = 0x884C5DDEBCA14D93`, and
`MurmurHash64("Hello, world!", 0) = 0x894A6F1657A9D3D1`. -/
theorem murmurHash64_vectors :
    MurmurHash64 (bytesOfStr (str "")) 0 = 0x0000000000000000 ∧
    MurmurHash64 (bytesOfStr (str "")) 1 = 0x3CD62B54B6E5772D ∧
    MurmurHash64 (bytesOfStr (str "test")) 0 = 0x884C5DDEBCA14D93 ∧
    MurmurHash64 (bytesOfStr (str "Hello, world!")) 0 = 0x894A6F1657A9D3D1 :=
  ⟨by decide, by decide, by decide, by decide⟩

/-- C3: `UniqueString` matches the exact vectors:
`UniqueString("") = "aaaaaaaaaaaaa"`, `UniqueString("sub-id") = "m3qsgok2tj3gw"`,
`UniqueString("sub-id", "env-name", "location") = "dshmwnunpaa2a"`. -/
theorem uniqueString_vectors :
    UniqueString [str ""] = .ok (str "aaaaaaaaaaaaa") ∧
    UniqueString [str "sub-id"] = .ok (str "m3qsgok2tj3gw") ∧
    UniqueString [str "sub-id", str "env-name", str "location"] =
      .ok (str "dshmwnunpaa2a") :=
  ⟨by decide, by decide, by decide⟩

/-- C4: for every non-empty tuple of input strings, `UniqueString` is the
deterministic composition join-with-`-` → `MurmurHash64` at seed 0 →
13-round top-5-bits base-32 encoding, and the result has exactly 13
characters, all drawn from the alphabet `"abcdefghijklmnopqrstuvwxyz234567"`. -/
theorem uniqueString_props (input : List Str) (h : input ≠ []) :
    UniqueString input =
      .ok (lowerStr (base32EncodeLen13
        (MurmurHash64 (bytesOfStr (List.intercalate (str "-") input)) 0))) ∧
    ∀ s, UniqueString input = .ok s →
      s.length = 13 ∧ ∀ ch ∈ s, ch ∈ charset := by
  have hne : input.isEmpty = false := isEmpty_false_of_ne h
  refine ⟨by simp [UniqueString, hne], ?_⟩
  intro s hs
  simp only [UniqueString, hne, Bool.false_eq_true, if_false, Except.ok.injEq] at hs
  constructor
  · rw [← hs]; simp [lowerStr, base32EncodeLen13, b32Go_length]
  · intro ch hch
    rw [← hs] at hch
    simp only [lowerStr, List.mem_map] at hch
    obtain ⟨c0, hc0, rfl⟩ := hch
    have hmem : c0 ∈ charset := b32Go_mem (v := MurmurHash64 (bytesOfStr
      (List.intercalate (str "-") input)) 0) hc0
    rw [toLower_mem_charset hmem]
    exact hmem

/-- Witness for C4 at the concrete input `["sub-id"]`. -/
theorem uniqueString_props_witness :
    UniqueString [str "sub-id"] =
      .ok (lowerStr (base32EncodeLen13
        (MurmurHash64 (bytesOfStr (List.intercalate (str "-") [str "sub-id"])) 0))) :=
  (uniqueString_props [str "sub-id"] (by decide)).1

end Aery

namespace Aerygen

open Aery (Str str containsSub_singleton str_dash isEmpty_false_of_ne)

/-- C5: with a catalog entry for the resource's type, `Name(token, resource)`
returns `resource.Name` unchanged when it is set (whatever the catalog
holds); otherwise, with `k` the matched kind, it returns
`prefix ++ separator ++ token`, where the prefix is the resource's alias
when set and `k`'s abbreviation otherwise, and the separator is empty
exactly when `k`'s globally restricted characters include `-`. -/
theorem name_precedence (token : Str) (rdef : ResourceDef) (catalog : Catalog) :
    (∀ n, rdef.name = some n → Name token rdef catalog = .ok n) ∧
    (∀ kinds k a, rdef.name = none →
      typesLookup catalog rdef.type = some kinds →
      matchResourceKind rdef kinds = some k →
      rdef.«alias» = some a → a ≠ [] →
      Name token rdef catalog =
        .ok (a ++ (if k.namingRules.restrictedChars.global.contains '-'
          then [] else str "-") ++ token)) ∧
    (∀ kinds k, rdef.name = none →
      typesLookup catalog rdef.type = some kinds →
      matchResourceKind rdef kinds = some k →
      (rdef.«alias» = none ∨ rdef.«alias» = some []) →
      Name token rdef catalog =
        .ok (k.abbreviation ++
          (if k.namingRules.restrictedChars.global.contains '-'
            then [] else str "-") ++ token)) := by
  refine ⟨?_, ?_, ?_⟩
  · intro n hn
    simp [Name, hn]
  · intro kinds k a hn hl hm ha hane
    simp [Name, hn, hl, hm, ha, isEmpty_false_of_ne hane, str_dash,
      containsSub_singleton]
  · intro kinds k hn hl hm ha
    rcases ha with ha | ha <;>
      simp [Name, hn, hl, hm, ha, str_dash, containsSub_singleton]

end Aerygen

namespace Aery

theorem lastIndexOfChar_eq_none {c : Char} {l : Str} (h : l.contains c = false) :
    lastIndexOfChar c l = none := by
  induction l with
  | nil => rfl
  | cons a t ih =>
    rw [List.contains_cons, Bool.or_eq_false_iff] at h
    have hca : ¬c = a := by simpa using h.1
    have hne : ¬a = c := fun hac => hca hac.symm
    rw [lastIndexOfChar, ih h.2, if_neg (by simpa using hne)]

theorem lastIndexOfChar_append {base child : Str}
    (hc : child.contains '/' = false) :
    lastIndexOfChar '/' (base ++ '/' :: child) = some base.length := by
  induction base with
  | nil => simp [lastIndexOfChar, lastIndexOfChar_eq_none hc]
  | cons b bs ih => simp [lastIndexOfChar, ih]

/-- C8: for every resource reaching the apply step, exactly one of `Name`
and `Alias` must be set: when both are empty or both are non-empty,
`applyResource` fails with the corresponding error before issuing any
request (`puts = []`). -/
theorem applyResource_name_alias (sub grp : Str)
    (nameFn : Str → ResourceSpec → Except Err Str)
    (send : Str → Response) (poll : Str → Except Err Unit) (r : ResourceSpec) :
    (r.name = [] → r.«alias» = [] →
      applyResource sub grp nameFn send poll r =
        ⟨r, [], .error (.simple (str "resource " ++ r.type ++
          str " must specify either name or alias"))⟩) ∧
    (r.name ≠ [] → r.«alias» ≠ [] →
      applyResource sub grp nameFn send poll r =
        ⟨r, [], .error (.simple (str "resource " ++ r.name ++
          str " cannot specify both name and alias"))⟩) := by
  constructor
  · intro h1 h2
    simp [applyResource, h1, h2]
  · intro h1 h2
    simp [applyResource, isEmpty_false_of_ne h1, isEmpty_false_of_ne h2]

/-- Witness for C8: both validation failures at concrete resources. -/
theorem applyResource_name_alias_witness :
    applyResource (str "s") (str "g") (fun _ _ => .ok (str "n"))
        (fun _ => ⟨200, []⟩) (fun _ => .ok ())
        ⟨[], [], [], str "T", str "v"⟩ =
      ⟨⟨[], [], [], str "T", str "v"⟩, [],
        .error (.simple (str "resource " ++ str "T" ++
          str " must specify either name or alias"))⟩ ∧
    applyResource (str "s") (str "g") (fun _ _ => .ok (str "n"))
        (fun _ => ⟨200, []⟩) (fun _ => .ok ())
        ⟨str "a", str "al", [], str "T", str "v"⟩ =
      ⟨⟨str "a", str "al", [], str "T", str "v"⟩, [],
        .error (.simple (str "resource " ++ str "a" ++
          str " cannot specify both name and alias"))⟩ :=
  ⟨(applyResource_name_alias (str "s") (str "g") (fun _ _ => .ok (str "n"))
      (fun _ => ⟨200, []⟩) (fun _ => .ok ())
      ⟨[], [], [], str "T", str "v"⟩).1 rfl rfl,
    (applyResource_name_alias (str "s") (str "g") (fun _ _ => .ok (str "n"))
      (fun _ => ⟨200, []⟩) (fun _ => .ok ())
      ⟨str "a", str "al", [], str "T", str "v"⟩).2 (by decide) (by decide)⟩

/-- C10: for every resource with a non-empty `Parent`, with `lastSlash` the
index of the last `/` in `Type`, if `Parent` is shorter than `lastSlash` or
its first `lastSlash` characters differ from those of `Type`, applying the
resource fails with the "is not a valid parent" error and issues no request. -/
theorem applyResource_parent_check (sub grp : Str)
    (nameFn : Str → ResourceSpec → Except Err Str)
    (send : Str → Response) (poll : Str → Except Err Unit)
    (r : ResourceSpec) (ls : Nat)
    (hn : r.name ≠ []) (ha : r.«alias» = []) (hp : r.parent ≠ [])
    (hls : lastIndexOfChar '/' r.type = some ls)
    (hbad : r.parent.length < ls ∨ r.parent.take ls ≠ r.type.take ls) :
    applyResource sub grp nameFn send poll r =
      ⟨r, [], .error (.simple (str "parent resource " ++ r.parent ++
        str " is not a valid parent for resource " ++ r.name))⟩ := by
  have hne : r.name.isEmpty = false := isEmpty_false_of_ne hn
  have hpe : r.parent.isEmpty = false := isEmpty_false_of_ne hp
  have hcond : (decide (r.parent.length < ls) ||
      (r.parent.take ls != r.type.take ls)) = true := by
    rcases hbad with hb | hb
    · simp [hb]
    · simp [bne_iff_ne, hb]
  simp [applyResource, hne, ha, nameStep, locationStep, hpe, hls, hcond]

/-- Witness for C10 at a concrete resource whose `Parent` does not share
`Type`'s prefix. -/
theorem applyResource_parent_check_witness :
    applyResource (str "s") (str "g") (fun _ _ => .ok (str "n"))
        (fun _ => ⟨200, []⟩) (fun _ => .ok ())
        ⟨str "n", [], str "X/y", str "A/B", str "v"⟩ =
      ⟨⟨str "n", [], str "X/y", str "A/B", str "v"⟩, [],
        .error (.simple (str "parent resource " ++ str "X/y" ++
          str " is not a valid parent for resource " ++ str "n"))⟩ :=
  applyResource_parent_check (str "s") (str "g") (fun _ _ => .ok (str "n"))
    (fun _ => ⟨200, []⟩) (fun _ => .ok ())
    ⟨str "n", [], str "X/y", str "A/B", str "v"⟩ 1
    (by decide) rfl (by decide) (by decide) (Or.inr (by decide))

/-- C6: the request URL of an applied resource: `providers/<Type>/<Name>`
in general, a bare `resourcegroups` segment for the resource-group type,
and, when `Parent` is set, `Type` is split at its last `/` and the path
becomes `providers/<baseType><parentSuffix><childSuffix>/<Name>` with
`parentSuffix` and `childSuffix` the trailing segments of `Parent` and
`Type`. -/
theorem applyResource_location (sub grp : Str)
    (nameFn : Str → ResourceSpec → Except Err Str)
    (send : Str → Response) (poll : Str → Except Err Unit)
    (r : ResourceSpec) (hn : r.name ≠ []) (ha : r.«alias» = []) :
    (r.parent = [] → r.type ≠ str "Microsoft.Resources/resourceGroups" →
      (applyResource sub grp nameFn send poll r).puts =
        [endpointOf sub grp ++ str "/" ++ (str "providers/" ++ r.type) ++
          str "/" ++ r.name ++ str "?api-version=" ++ r.apiVersion]) ∧
    (r.parent = [] → r.type = str "Microsoft.Resources/resourceGroups" →
      (applyResource sub grp nameFn send poll r).puts =
        [endpointOf sub grp ++ str "/" ++ str "resourcegroups" ++
          str "/" ++ r.name ++ str "?api-version=" ++ r.apiVersion]) ∧
    (∀ base child pname,
      r.type = base ++ '/' :: child → child.contains '/' = false →
      r.parent = base ++ '/' :: pname → pname.contains '/' = false →
      (applyResource sub grp nameFn send poll r).puts =
        [endpointOf sub grp ++ str "/providers/" ++ base ++ ('/' :: pname) ++
          ('/' :: child) ++ str "/" ++ r.name ++ str "?api-version=" ++
          r.apiVersion]) := by
  have hne : r.name.isEmpty = false := isEmpty_false_of_ne hn
  refine ⟨?_, ?_, ?_⟩
  · intro hp htype
    have htb : (r.type == str "Microsoft.Resources/resourceGroups") = false :=
      beq_eq_false_iff_ne.mpr htype
    rcases hpoll : poll (endpointOf sub grp ++ str "/" ++
        (str "providers/" ++ r.type) ++ str "/" ++ r.name ++
        str "?api-version=" ++ r.apiVersion) with e | u <;>
      simp [applyResource, hne, ha, nameStep, locationStep, hp, htb,
        List.append_assoc, hpoll] <;>
      split <;> simp_all <;> split <;> simp_all
  · intro hp htype
    rcases hpoll : poll (endpointOf sub grp ++ str "/" ++
        str "resourcegroups" ++ str "/" ++ r.name ++
        str "?api-version=" ++ r.apiVersion) with e | u <;>
      simp [applyResource, hne, ha, nameStep, locationStep, hp, htype,
        List.append_assoc, hpoll] <;>
      split <;> simp_all <;> split <;> simp_all
  · intro base child pname htype hchild hparent hpname
    have hpe : r.parent.isEmpty = false := by
      rw [hparent]; exact isEmpty_false_of_ne (by simp)
    have hls : lastIndexOfChar '/' r.type = some base.length := by
      rw [htype]; exact lastIndexOfChar_append hchild
    have hlen : ¬r.parent.length < base.length := by
      rw [hparent]; simp [List.length_append]
    have htakep : r.parent.take base.length = base := by
      rw [hparent]; exact List.take_left base ('/' :: pname)
    have htaket : r.type.take base.length = base := by
      rw [htype]; exact List.take_left base ('/' :: child)
    have hdropp : r.parent.drop base.length = '/' :: pname := by
      rw [hparent]; exact List.drop_left base ('/' :: pname)
    have hdropt : r.type.drop base.length = '/' :: child := by
      rw [htype]; exact List.drop_left base ('/' :: child)
    rcases hpoll : poll (endpointOf sub grp ++ str "/providers/" ++ base ++
        ('/' :: pname) ++ ('/' :: child) ++ str "/" ++ r.name ++
        str "?api-version=" ++ r.apiVersion) with e | u <;>
      simp [applyResource, hne, ha, nameStep, locationStep, hpe, hls, hlen,
        htakep, htaket, hdropp, hdropt, List.append_assoc, hpoll] <;>
      split <;> simp_all <;> split <;> simp_all

/-- C9: a PUT response with status other than 200 or 201 yields a
`ResponseError` built from the status code and body; the apply loop stops
at that resource, wrapping the failure as
`"failed applying resource <name>: <cause>"`, while the PUTs already issued
for earlier resources remain in the trace and nothing further is issued
(no rollback). -/
theorem apply_response_error (sub grp : Str)
    (nameFn : Str → ResourceSpec → Except Err Str)
    (send : Str → Response) (poll : Str → Except Err Unit) :
    (∀ (r : ResourceSpec) loc, r.name ≠ [] → r.«alias» = [] →
      locationStep (endpointOf sub grp) r = .ok loc →
      (send loc).statusCode ≠ 200 → (send loc).statusCode ≠ 201 →
      applyResource sub grp nameFn send poll r =
        ⟨r, [loc], .error (.responseError (send loc).statusCode
          (send loc).body)⟩) ∧
    (∀ pre r rest ps e,
      applyList sub grp nameFn send poll pre = (ps, .ok ()) →
      (applyResource sub grp nameFn send poll r).result = .error e →
      applyList sub grp nameFn send poll (pre ++ r :: rest) =
        (ps ++ (applyResource sub grp nameFn send poll r).puts,
          .error (.wrapped (str "failed applying resource " ++
            (applyResource sub grp nameFn send poll r).resource.name) e))) := by
  constructor
  · intro r loc hn ha hloc h200 h201
    have hne : r.name.isEmpty = false := isEmpty_false_of_ne hn
    have hb200 : ((send loc).statusCode == 200) = false :=
      beq_eq_false_iff_ne.mpr h200
    have hb201 : ((send loc).statusCode == 201) = false :=
      beq_eq_false_iff_ne.mpr h201
    simp [applyResource, hne, ha, nameStep, hloc, hb200, hb201]
  · intro pre r rest ps e hpre herr
    induction pre generalizing ps with
    | nil =>
      simp only [applyList] at hpre
      obtain ⟨rfl, -⟩ := Prod.mk.injEq .. ▸ hpre
      simp [applyList, herr]
    | cons p pre' ih =>
      rcases hop : (applyResource sub grp nameFn send poll p).result with e' | u
      · rw [applyList.eq_def] at hpre
        simp only [hop] at hpre
        exact absurd (congrArg Prod.snd hpre) (by simp)
      · rcases hrest : applyList sub grp nameFn send poll pre' with ⟨ps', res'⟩
        rw [applyList.eq_def] at hpre
        simp only [hop, hrest] at hpre
        obtain ⟨hps, hres⟩ := Prod.mk.injEq .. ▸ hpre
        have hok : res' = .ok () := hres
        rw [hok] at hrest
        have := ih ps' hrest
        rw [List.cons_append, applyList.eq_def]
        simp only [hop, this]
        rw [← hps]
        simp [List.append_assoc]

/-- Witness for C6: all three URL shapes at concrete resources. -/
theorem applyResource_location_witness :
    (applyResource (str "s") (str "g") (fun _ _ => .ok (str "n"))
        (fun _ => ⟨200, []⟩) (fun _ => .ok ())
        ⟨str "a", [], [], str "T", str "v"⟩).puts =
      [endpointOf (str "s") (str "g") ++ str "/" ++ (str "providers/" ++ str "T") ++
        str "/" ++ str "a" ++ str "?api-version=" ++ str "v"] ∧
    (applyResource (str "s") [] (fun _ _ => .ok (str "n"))
        (fun _ => ⟨200, []⟩) (fun _ => .ok ())
        ⟨str "rg", [], [], str "Microsoft.Resources/resourceGroups", str "v"⟩).puts =
      [endpointOf (str "s") [] ++ str "/" ++ str "resourcegroups" ++
        str "/" ++ str "rg" ++ str "?api-version=" ++ str "v"] ∧
    (applyResource (str "s") (str "g") (fun _ _ => .ok (str "n"))
        (fun _ => ⟨200, []⟩) (fun _ => .ok ())
        ⟨str "c", [], str "A/B/x", str "A/B/C", str "v"⟩).puts =
      [endpointOf (str "s") (str "g") ++ str "/providers/" ++ str "A/B" ++
        ('/' :: str "x") ++ ('/' :: str "C") ++ str "/" ++ str "c" ++
        str "?api-version=" ++ str "v"] :=
  ⟨(applyResource_location (str "s") (str "g") (fun _ _ => .ok (str "n"))
      (fun _ => ⟨200, []⟩) (fun _ => .ok ())
      ⟨str "a", [], [], str "T", str "v"⟩ (by decide) rfl).1 rfl (by decide),
    (applyResource_location (str "s") [] (fun _ _ => .ok (str "n"))
      (fun _ => ⟨200, []⟩) (fun _ => .ok ())
      ⟨str "rg", [], [], str "Microsoft.Resources/resourceGroups", str "v"⟩
      (by decide) rfl).2.1 rfl rfl,
    (applyResource_location (str "s") (str "g") (fun _ _ => .ok (str "n"))
      (fun _ => ⟨200, []⟩) (fun _ => .ok ())
      ⟨str "c", [], str "A/B/x", str "A/B/C", str "v"⟩ (by decide) rfl).2.2
      (str "A/B") (str "C") (str "x") rfl (by decide) rfl (by decide)⟩

/-- Witness for C9: a two-resource run where the second PUT answers 500;
the first resource's PUT remains in the trace, the error is the wrapped
`ResponseError`. -/
theorem apply_response_error_witness :
    applyResource (str "s") (str "g") nameFn9 send9 poll9 resB9 =
      ⟨resB9, [locB9], .error (.responseError 500 (str "boom"))⟩ ∧
    applyList (str "s") (str "g") nameFn9 send9 poll9 [resA9, resB9] =
      ([locA9, locB9], .error (.wrapped (str "failed applying resource " ++
        str "b") (.responseError 500 (str "boom")))) := by
  constructor
  · exact (apply_response_error (str "s") (str "g") nameFn9 send9 poll9).1
      resB9 locB9 (by decide) rfl (by decide) (by decide) (by decide)
  · exact (apply_response_error (str "s") (str "g") nameFn9 send9 poll9).2
      [resA9] resB9 [] [locA9] (.responseError 500 (str "boom"))
      (by decide) (by decide)

end Aery

namespace Aerygen

open Aery (Str str)

/-- Witness for C5: the explicit-name case and the abbreviation case at a
concrete token, resource and catalog. -/
theorem name_precedence_witness :
    Name (str "tok") { rdefEx with name := some (str "given") } catalogEx =
      .ok (str "given") ∧
    Name (str "tok") rdefEx catalogEx =
      .ok (kindDefault.abbreviation ++
        (if kindDefault.namingRules.restrictedChars.global.contains '-'
          then [] else str "-") ++ str "tok") :=
  ⟨(name_precedence (str "tok") { rdefEx with name := some (str "given") }
      catalogEx).1 (str "given") rfl,
    (name_precedence (str "tok") rdefEx catalogEx).2.2 [kindDefault] kindDefault
      rfl (by decide) (by decide) (Or.inl rfl)⟩

end Aerygen

namespace Aery

theorem indexOfSub_some_of_prefixOf {rT pT : Str} (hp : pT.isPrefixOf rT) :
    indexOfSub rT pT = some 0 := by
  rw [indexOfSub.eq_def, if_pos hp]

theorem acceptParent_eq_amendedAccept (rT pT : Str) :
    acceptParent rT pT = amendedAccept rT pT := by
  by_cases hp : pT.isPrefixOf rT
  · simp [acceptParent, cut, indexOfSub_some_of_prefixOf hp, amendedAccept, hp,
      Bool.and_assoc]
  · have hpb : pT.isPrefixOf rT = false := Bool.eq_false_iff.mpr hp
    rcases hidx : indexOfSub rT pT with _ | k
    · simp [acceptParent, cut, hidx, amendedAccept, hpb]
    · have hk0 : k ≠ 0 := by
        intro h0
        subst h0
        rw [indexOfSub.eq_def, if_neg hp] at hidx
        cases rT with
        | nil => cases hidx
        | cons a t =>
          obtain ⟨m, -, hm⟩ := Option.map_eq_some'.mp hidx
          omega
      cases rT with
      | nil =>
        rw [indexOfSub.eq_def, if_neg hp] at hidx
        cases hidx
      | cons a t =>
        have hbefore : (List.take k (a :: t)).isEmpty = false := by
          cases k with
          | zero => exact absurd rfl hk0
          | succ k' => rfl
        simp [acceptParent, cut, hidx, amendedAccept, hpb, hbefore]

theorem findParentAux_eq_spec (rT : Str) (i : Nat) (l1 : List ResourceSpec) :
    ∀ (j : Nat) (l2 : List ResourceSpec), shapeTN l1 = shapeTN l2 →
      findParentAux rT i j l1 = specFindParentAux rT i j l2 := by
  induction l1 with
  | nil =>
    intro j l2 h
    cases l2 with
    | nil => rfl
    | cons p2 t2 => simp [shapeTN] at h
  | cons p1 t1 ih =>
    intro j l2 h
    cases l2 with
    | nil => simp [shapeTN] at h
    | cons p2 t2 =>
      simp only [shapeTN, List.map_cons, List.cons.injEq, Prod.mk.injEq] at h
      obtain ⟨⟨hty, hnm⟩, ht⟩ := h
      have ht' : shapeTN t1 = shapeTN t2 := ht
      by_cases hij : i = j
      · subst hij
        simp [findParentAux, specFindParentAux, ih _ _ ht']
      · have hb : (i == j) = false := by simpa using hij
        simp [findParentAux, specFindParentAux, hb,
          acceptParent_eq_amendedAccept, hty, hnm, ih _ _ ht']

theorem findParentAux_some_ne_nil {rT : Str} {i : Nat}
    {l : List ResourceSpec} {p : Str} :
    ∀ {j : Nat}, findParentAux rT i j l = some p → p ≠ [] := by
  induction l with
  | nil => intro j h; cases h
  | cons q t ih =>
    intro j h
    simp only [findParentAux] at h
    by_cases hij : (i == j) = true
    · rw [if_pos hij] at h
      exact ih h
    · rw [if_neg hij] at h
      by_cases hacc : acceptParent rT q.type = true
      · rw [if_pos hacc] at h
        injection h with h'
        rw [← h']
        simp [str]
      · rw [if_neg hacc] at h
        exact ih h

theorem resolveGo_nil (done : List ResourceSpec) : resolveGo done [] = .ok done := rfl

theorem resolveGo_cons (done : List ResourceSpec) (r : ResourceSpec)
    (rest : List ResourceSpec) :
    resolveGo done (r :: rest) =
      if isChildResource r.type && r.parent.isEmpty then
        match findParent r.type done.length (done ++ r :: rest) with
        | some par => resolveGo (done ++ [{ r with parent := par }]) rest
        | none => .error (.simple (str "failed to resolve parent for " ++ r.name))
      else resolveGo (done ++ [r]) rest := rfl

theorem specResolveGo_nil (rs : List ResourceSpec) (i : Nat) :
    specResolveGo rs i [] = .ok [] := rfl

theorem specResolveGo_cons (rs : List ResourceSpec) (i : Nat)
    (r : ResourceSpec) (rest : List ResourceSpec) :
    specResolveGo rs i (r :: rest) =
      match specResolveOne rs i r with
      | .error e => .error e
      | .ok r' =>
        match specResolveGo rs (i + 1) rest with
        | .error e => .error e
        | .ok rest' => .ok (r' :: rest') := rfl

theorem resolveGo_eq (todo : List ResourceSpec) :
    ∀ (done base : List ResourceSpec), shapeTN done = shapeTN base →
      resolveGo done todo =
        Except.map (done ++ ·) (specResolveGo (base ++ todo) base.length todo) := by
  induction todo with
  | nil =>
    intro done base h
    rw [resolveGo_nil, specResolveGo_nil]
    simp [Except.map]
  | cons r rest ih =>
    intro done base h
    have hlen : done.length = base.length := by
      have := congrArg List.length h
      simpa [shapeTN] using this
    have hshape : shapeTN (done ++ r :: rest) = shapeTN (base ++ r :: rest) := by
      simp only [shapeTN, List.map_append] at h ⊢
      rw [h]
    have hshape1 : ∀ q : ResourceSpec, q.type = r.type → q.name = r.name →
        shapeTN (done ++ [q]) = shapeTN (base ++ [r]) := by
      intro q hqt hqn
      simp only [shapeTN, List.map_append] at h ⊢
      simp [h, hqt, hqn]
    have hli : (base ++ [r]) ++ rest = base ++ r :: rest := by simp
    have hlen2 : (base ++ [r]).length = base.length + 1 := by simp
    rw [resolveGo_cons, specResolveGo_cons]
    by_cases hcond : (isChildResource r.type && r.parent.isEmpty) = true
    · rw [if_pos hcond]
      have hone : specResolveOne (base ++ r :: rest) base.length r =
          match specFindParentAux r.type base.length 0 (base ++ r :: rest) with
          | some par => .ok { r with parent := par }
          | none => .error (.simple (str "failed to resolve parent for " ++ r.name)) := by
        simp only [specResolveOne]
        rw [if_pos hcond]
      have hfp : findParent r.type done.length (done ++ r :: rest) =
          specFindParentAux r.type base.length 0 (base ++ r :: rest) := by
        rw [findParent, hlen]
        exact findParentAux_eq_spec _ _ _ _ _ hshape
      rcases hfind : specFindParentAux r.type base.length 0 (base ++ r :: rest)
        with _ | par
      · simp only [hfp, hfind, hone]
        rfl
      · simp only [hfp, hfind, hone]
        have ih' := ih (done ++ [{ r with parent := par }]) (base ++ [r])
          (hshape1 _ rfl rfl)
        rw [ih', hli, hlen2]
        rcases hmm : specResolveGo (base ++ r :: rest) (base.length + 1) rest
          with e | l
        · rfl
        · simp [Except.map]
    · rw [if_neg hcond]
      have hone : specResolveOne (base ++ r :: rest) base.length r = .ok r := by
        simp only [specResolveOne]
        rw [if_neg hcond]
      rw [hone]
      have ih' := ih (done ++ [r]) (base ++ [r]) (hshape1 _ rfl rfl)
      rw [ih', hli, hlen2]
      rcases hmm : specResolveGo (base ++ r :: rest) (base.length + 1) rest
        with e | l
      · rfl
      · simp [Except.map]

end Aery

namespace Aery

/-- C1 (amended): the parent-resolution pass resolves each child resource
with empty `Parent` independently against its document set, in document
order: the first sibling (scanned in document order, skipping the resource
itself) whose type is a strict prefix of the resource's type immediately
followed by `/` with a *non-empty* remainder containing no further `/`
becomes the parent (`Parent := p.Type + "/" + p.Name`), and the pass fails
when no such sibling exists; in particular siblings `"A/B"` named `"x"` and
`"A/B/C"` resolve the latter's `Parent` to `"A/B/x"`. -/
theorem resolveParents_spec :
    (∀ rs, resolveParents rs = specResolve rs) ∧
    resolveParents
      [⟨str "x", [], [], str "A/B", str "v"⟩,
       ⟨str "c", [], [], str "A/B/C", str "v"⟩] =
      .ok [⟨str "x", [], [], str "A/B", str "v"⟩,
           ⟨str "c", [], str "A/B/x", str "A/B/C", str "v"⟩] := by
  constructor
  · intro rs
    have h := resolveGo_eq rs [] [] rfl
    rw [resolveParents, specResolve]
    rw [h]
    simp only [List.nil_append, List.length_nil]
    rcases hm : specResolveGo rs 0 rs with e | l
    · rfl
    · simp [Except.map]
  · decide

/-- C1 counterexample: for siblings of types `"A/B"` (named `"x"`) and
`"A/B/"` with empty `Parent`, the candidate `"A/B"` satisfies the claim's
acceptance condition exactly as worded (strict prefix immediately followed
by `/`, and the remainder after that `/` — here empty — contains no further
`/`), so the claim requires `Parent` to become `"A/B/x"`; the source pass
instead rejects the candidate (it also requires `len(after) > 1`) and fails
with a parent-resolution error. -/
theorem resolveParents_claim_counterexample :
    claimAccept (str "A/B/") (str "A/B") = true ∧
    isChildResource (str "A/B/") = true ∧
    resolveParents
      [⟨str "x", [], [], str "A/B", str "v"⟩,
       ⟨str "c", [], [], str "A/B/", str "v"⟩] =
      .error (.simple (str "failed to resolve parent for c")) := by decide

theorem resolveGo_ok_parents (todo : List ResourceSpec) :
    ∀ (done out : List ResourceSpec),
      (∀ r ∈ done, isChildResource r.type = true → r.parent ≠ []) →
      resolveGo done todo = .ok out →
      ∀ r ∈ out, isChildResource r.type = true → r.parent ≠ [] := by
  induction todo with
  | nil =>
    intro done out hdone h
    rw [resolveGo_nil] at h
    injection h with h'
    rw [← h']
    exact hdone
  | cons r rest ih =>
    intro done out hdone h
    rw [resolveGo_cons] at h
    by_cases hcond : (isChildResource r.type && r.parent.isEmpty) = true
    · rw [if_pos hcond] at h
      rcases hfind : findParent r.type done.length (done ++ r :: rest)
        with _ | par
      · simp only [hfind] at h
        cases h
      · simp only [hfind] at h
        refine ih _ _ ?_ h
        intro q hq hchild
        rcases List.mem_append.mp hq with hq | hq
        · exact hdone q hq hchild
        · have hq' := List.mem_singleton.mp hq
          rw [hq']
          simp only [findParent] at hfind
          exact findParentAux_some_ne_nil hfind
    · rw [if_neg hcond] at h
      refine ih _ _ ?_ h
      intro q hq hchild
      rcases List.mem_append.mp hq with hq | hq
      · exact hdone q hq hchild
      · have hq' := List.mem_singleton.mp hq
        subst hq'
        intro hnil
        apply hcond
        rw [hchild, hnil]
        rfl

/-- C7 (amended): within each loaded document set, the parent-resolution
pass completes for the whole set before any of its resources is applied: a
set whose resolution fails produces no request at all (neither for it nor
for later sets), and a completed pass leaves every child resource of the
set with a non-empty `Parent`. Files are processed one at a time, so
resources of earlier files are applied before later files are loaded or
resolved. -/
theorem applyFiles_resolution_order (sub grp : Str)
    (nameFn : Str → ResourceSpec → Except Err Str)
    (send : Str → Response) (poll : Str → Except Err Unit) :
    (∀ f rest e, resolveParents f = .error e →
      applyFiles sub grp nameFn send poll (f :: rest) = ([], some e)) ∧
    (∀ rs out, resolveParents rs = .ok out →
      ∀ r ∈ out, isChildResource r.type = true → r.parent ≠ []) := by
  constructor
  · intro f rest e h
    simp [applyFiles, h]
  · intro rs out h
    exact resolveGo_ok_parents rs [] out
      (fun r hr _ => absurd hr (List.not_mem_nil r)) h

/-- C7 counterexample: a directory run with two files, the first holding a
plain resource and the second an orphaned child. The first file's resource
is PUT (the trace holds one request) even though the parent-resolution of
the run's full resource list never completes — the orphaned child of the
second file still has an empty `Parent` when that request is issued, and
resolution ultimately fails. -/
theorem applyFiles_claim_counterexample :
    applyFiles (str "s") (str "g") nameFn9 send9 poll9 [[resA9], [resOrphan]] =
      ([locA9], some (.simple (str "failed to resolve parent for c"))) ∧
    isChildResource resOrphan.type = true ∧ resOrphan.parent = [] := by decide

/-- Witness for C7 at concrete runs: a failing set issues no request, and a
resolved child carries a non-empty parent. -/
theorem applyFiles_resolution_order_witness :
    applyFiles (str "s") (str "g") nameFn9 send9 poll9 [[resOrphan]] =
      ([], some (.simple (str "failed to resolve parent for c"))) ∧
    (⟨str "c", [], str "A/B/x", str "A/B/C", str "v"⟩ : ResourceSpec).parent ≠ [] :=
  ⟨(applyFiles_resolution_order (str "s") (str "g") nameFn9 send9 poll9).1
      [resOrphan] [] (.simple (str "failed to resolve parent for c")) (by decide),
    (applyFiles_resolution_order (str "s") (str "g") nameFn9 send9 poll9).2
      [⟨str "x", [], [], str "A/B", str "v"⟩,
       ⟨str "c", [], [], str "A/B/C", str "v"⟩]
      [⟨str "x", [], [], str "A/B", str "v"⟩,
       ⟨str "c", [], str "A/B/x", str "A/B/C", str "v"⟩]
      (by decide)
      ⟨str "c", [], str "A/B/x", str "A/B/C", str "v"⟩
      (by decide) (by decide)⟩

end Aery
